import Mathlib

/-!
Shallow embedding of `python/samples/aip_werewolf_game/main.py` (class `WolfGame`
and the night/day pipeline of `main`), together with theorems checking the
natural-language specification against it.

Python strings are modelled as Lean `String`; `str.lower()` / `str.strip()` /
the substring test `a in b` are modelled character-list-wise by `lowS`, `trimS`
and `pySubstr` below (the game only ever handles ASCII identities).
The injectable random source (`random.choice`) is modelled by an explicit
index-choosing function, and the gRPC transport by an oracle
`Player → Except String TextMessage` (`Except.error` = raised exception).
-/

namespace WolfGame

/-- `str.lower()` : per-character lowercasing. -/
def lowS (s : String) : String := String.mk (s.data.map Char.toLower)

/-- `str.strip()` : drop whitespace at both ends. -/
def trimS (s : String) : String :=
  String.mk (((s.data.dropWhile Char.isWhitespace).reverse.dropWhile Char.isWhitespace).reverse)

/-- `needle` occurs at the start of `hay` (character lists). -/
def startsWithCL : List Char → List Char → Bool
  | [], _ => true
  | _ :: _, [] => false
  | a :: as, b :: bs => a == b && startsWithCL as bs

/-- `needle` occurs somewhere in `hay` (character lists). -/
def containsCL (n : List Char) : List Char → Bool
  | [] => startsWithCL n []
  | c :: t => startsWithCL n (c :: t) || containsCL n t

/-- Python `needle in hay` for strings. -/
def pySubstr (needle hay : String) : Bool := containsCL needle.data hay.data

/-- `common.Player`: name, role type, state. -/
structure Player where
  name : String
  type : String
  state : String
deriving DecidableEq, Repr

/-- `common.TextMessage`: protocol tag, source identity, content. -/
structure TextMessage where
  type : String
  source : String
  content : String
deriving DecidableEq, Repr

/-- `WolfGame.check_win` (main.py:98-113): count alive players and alive
wolves in one pass, then report a wolf win, a village win, or no winner. -/
def check_win (players : List Player) : String :=
  let wolf_cnt := players.countP (fun p => p.state == "alive" && p.type == "wolf")
  let alive_cnt := players.countP (fun p => p.state == "alive")
  if wolf_cnt * 2 ≥ alive_cnt then "Game over: wolf win"
  else if wolf_cnt = 0 then "Game over: village win"
  else ""

/-- Number of alive wolves in a roster. -/
def aliveWolves (players : List Player) : Nat :=
  players.countP (fun p => p.state == "alive" && p.type == "wolf")

/-- Number of alive players in a roster. -/
def aliveTotal (players : List Player) : Nat :=
  players.countP (fun p => p.state == "alive")

/-- A concrete roster with 4 alive players of which 2 are wolves. -/
def rosterTwoWolves : List Player :=
  [⟨"a", "wolf", "alive"⟩, ⟨"b", "wolf", "alive"⟩,
   ⟨"c", "village", "alive"⟩, ⟨"d", "village", "alive"⟩,
   ⟨"e", "seer", "dead"⟩, ⟨"f", "witch", "dead"⟩]

/-- A concrete roster with 4 alive players of which 1 is a wolf. -/
def rosterOneWolf : List Player :=
  [⟨"a", "wolf", "alive"⟩, ⟨"b", "wolf", "dead"⟩,
   ⟨"c", "village", "alive"⟩, ⟨"d", "village", "alive"⟩,
   ⟨"e", "seer", "alive"⟩, ⟨"f", "witch", "dead"⟩]

/-- A concrete roster in which every participant is dead. -/
def rosterAllDead : List Player :=
  [⟨"a", "wolf", "dead"⟩, ⟨"b", "wolf", "dead"⟩,
   ⟨"c", "village", "dead"⟩, ⟨"d", "village", "dead"⟩,
   ⟨"e", "seer", "dead"⟩, ⟨"f", "witch", "dead"⟩]

/-- Case analysis of `check_win` in terms of the two counts. -/
lemma check_win_iff (players : List Player) :
    (check_win players = "Game over: wolf win" ↔ 2 * aliveWolves players ≥ aliveTotal players)
    ∧ (check_win players = "Game over: village win" ↔
        (2 * aliveWolves players < aliveTotal players ∧ aliveWolves players = 0))
    ∧ (check_win players = "" ↔
        (2 * aliveWolves players < aliveTotal players ∧ aliveWolves players ≠ 0)) := by
  unfold check_win aliveWolves aliveTotal
  set w := players.countP (fun p => p.state == "alive" && p.type == "wolf") with hw
  set a := players.countP (fun p => p.state == "alive") with ha
  by_cases hle : w * 2 ≥ a
  · rw [if_pos hle]
    exact ⟨⟨fun _ => by omega, fun _ => rfl⟩,
           ⟨fun h => absurd h (by decide), fun h => absurd hle (by omega)⟩,
           ⟨fun h => absurd h (by decide), fun h => absurd hle (by omega)⟩⟩
  · rw [if_neg hle]
    by_cases hz : w = 0
    · rw [if_pos hz]
      exact ⟨⟨fun h => absurd h (by decide), fun h => absurd hle (by omega)⟩,
             ⟨fun _ => ⟨by omega, hz⟩, fun _ => rfl⟩,
             ⟨fun h => absurd h (by decide), fun h => absurd hz h.2⟩⟩
    · rw [if_neg hz]
      exact ⟨⟨fun h => absurd h.symm (by decide), fun h => absurd hle (by omega)⟩,
             ⟨fun h => absurd h.symm (by decide), fun h => absurd h.2 hz⟩,
             ⟨fun _ => ⟨by omega, hz⟩, fun _ => rfl⟩⟩

end WolfGame

namespace WolfGame

/-- C1: `check_win` reports a wolf win exactly when twice the alive-wolf count
is at least the alive total (non-strict, so wolves win at exact parity);
otherwise it reports a village win exactly when no wolf is alive; otherwise it
reports no winner.  With 4 alive players and 2 alive wolves the wolves win;
with 4 alive players and 1 alive wolf there is no winner. -/
theorem check_win_spec (players : List Player) :
    (check_win players = "Game over: wolf win" ↔ 2 * aliveWolves players ≥ aliveTotal players)
    ∧ (check_win players = "Game over: village win" ↔
        (2 * aliveWolves players < aliveTotal players ∧ aliveWolves players = 0))
    ∧ (check_win players = "" ↔
        (2 * aliveWolves players < aliveTotal players ∧ aliveWolves players ≠ 0))
    ∧ check_win rosterTwoWolves = "Game over: wolf win"
    ∧ check_win rosterOneWolf = "" :=
  ⟨(check_win_iff players).1, (check_win_iff players).2.1, (check_win_iff players).2.2,
   by decide, by decide⟩

/-- C9 counterexample: in the all-dead roster the number of alive wolves is 0,
yet `check_win` reports a wolf win (0*2 >= 0), not a village win. -/
theorem check_win_all_dead :
    aliveWolves rosterAllDead = 0
    ∧ check_win rosterAllDead = "Game over: wolf win"
    ∧ check_win rosterAllDead ≠ "Game over: village win" := by decide

/-- C9 (amended): whenever no wolf is alive and at least one participant is
alive, `check_win` reports a village win. -/
theorem check_win_village (players : List Player)
    (hw : aliveWolves players = 0) (ha : 0 < aliveTotal players) :
    check_win players = "Game over: village win" :=
  (check_win_iff players).2.1.2 ⟨by omega, hw⟩

/-- C9 witness: `check_win_village` applied to a concrete roster with one
alive villager and no alive wolf. -/
theorem check_win_village_witness :
    check_win [⟨"c", "village", "alive"⟩] = "Game over: village win" :=
  check_win_village [⟨"c", "village", "alive"⟩] (by decide) (by decide)

end WolfGame

namespace WolfGame

/-- `WolfGame.mark_dead` (main.py:91-96): scan the roster for the first
player whose lowercased name equals the lowercased argument; set its state to
"dead" and return the stored name; return "" when no player matches.  (The
source performs no aliveness check before overwriting the state.) -/
def mark_dead (players : List Player) (name : String) : String × List Player :=
  match players with
  | [] => ("", [])
  | p :: rest =>
      if lowS p.name = lowS name then (p.name, { p with state := "dead" } :: rest)
      else
        let r := mark_dead rest name
        (r.1, p :: r.2)

lemma mark_dead_not_found (name : String) (players : List Player)
    (h : ∀ p ∈ players, lowS p.name ≠ lowS name) :
    mark_dead players name = ("", players) := by
  induction players with
  | nil => rfl
  | cons p rest ih =>
      have hp : lowS p.name ≠ lowS name := h p (List.mem_cons_self p rest)
      have hrest := ih (fun q hq => h q (List.mem_cons_of_mem p hq))
      simp [mark_dead, hp, hrest]

lemma mark_dead_found (name : String) (l1 l2 : List Player) (p : Player)
    (hp : lowS p.name = lowS name) (h1 : ∀ q ∈ l1, lowS q.name ≠ lowS name) :
    mark_dead (l1 ++ p :: l2) name = (p.name, l1 ++ { p with state := "dead" } :: l2) := by
  induction l1 with
  | nil => simp [mark_dead, hp]
  | cons q l1 ih =>
      have hq : lowS q.name ≠ lowS name := h1 q (List.mem_cons_self q l1)
      have hrest := ih (fun r hr => h1 r (List.mem_cons_of_mem q hr))
      simp [mark_dead, hq, hrest]

end WolfGame

namespace WolfGame

/-- C3 counterexample: `mark_dead` on a roster whose only participant "Alice"
is already dead still returns the stored name "Alice" (not ""), contradicting
the claim that an already-dead participant yields the empty string. -/
theorem mark_dead_dead_returns_name :
    mark_dead [⟨"Alice", "wolf", "dead"⟩] "alice"
      = ("Alice", [⟨"Alice", "wolf", "dead"⟩])
    ∧ ("Alice" : String) ≠ "" := by decide

/-- C3 (amended): `mark_dead` does a case-insensitive scan; when some
participant matches it sets the first match's state to "dead" and returns
that participant's stored name regardless of its previous state; when no
participant matches it returns "" and leaves the roster unchanged.  A second
call with the same identity returns the same (non-empty) name again and
changes nothing: `mark_dead` is idempotent on the roster but not
empty-returning on the repeat call. -/
theorem mark_dead_spec (players : List Player) (name : String) :
    ((∀ p ∈ players, lowS p.name ≠ lowS name) → mark_dead players name = ("", players))
    ∧ (∀ l1 p l2, players = l1 ++ p :: l2 → lowS p.name = lowS name →
        (∀ q ∈ l1, lowS q.name ≠ lowS name) →
        mark_dead players name = (p.name, l1 ++ { p with state := "dead" } :: l2))
    ∧ mark_dead (mark_dead players name).2 name = mark_dead players name := by
  refine ⟨fun h => mark_dead_not_found name players h,
          fun l1 p l2 he hp h1 => by rw [he]; exact mark_dead_found name l1 l2 p hp h1,
          ?_⟩
  induction players with
  | nil => rfl
  | cons p rest ih =>
      by_cases hp : lowS p.name = lowS name
      · simp [mark_dead, hp]
      · simp only [mark_dead, if_neg hp]
        rw [ih]

/-- C3 witness: `mark_dead_spec` applied at a concrete roster, discharging
the not-found hypothesis (no participant named "zed"). -/
theorem mark_dead_spec_witness :
    mark_dead [⟨"Alice", "wolf", "alive"⟩] "zed" = ("", [⟨"Alice", "wolf", "alive"⟩]) :=
  (mark_dead_spec [⟨"Alice", "wolf", "alive"⟩] "zed").1 (by decide)

end WolfGame

namespace WolfGame

/-- Transport oracle: the response of `runtime.send_message` addressed to one
player; `Except.error` models a raised transport exception. -/
abbrev Oracle := Player → Except String TextMessage

/-- `WolfGame.broadcast` (main.py:115-122): loop over the roster, skip
non-alive players, await each send and append the response.  There is no
`try`/`except` here, so a raised exception aborts the whole loop: the `Except`
monad propagates the first error. -/
def broadcast (oracle : Oracle) : List Player → Except String (List TextMessage)
  | [] => .ok []
  | p :: rest =>
      if p.state ≠ "alive" then broadcast oracle rest
      else
        match oracle p with
        | .error e => .error e
        | .ok r =>
            match broadcast oracle rest with
            | .error e => .error e
            | .ok rs => .ok (r :: rs)

/-- `WolfGame.send_message` (main.py:124-146): loop over the roster, skip
non-alive players and players of the wrong type (unless `typ = "all"`), send
inside `try`/`except`, appending the response on success and skipping the
player on a transport error. -/
def send_message (typ : String) (oracle : Oracle) : List Player → List TextMessage
  | [] => []
  | p :: rest =>
      if p.state ≠ "alive" then send_message typ oracle rest
      else if p.type ≠ typ ∧ typ ≠ "all" then send_message typ oracle rest
      else
        match oracle p with
        | .error _ => send_message typ oracle rest
        | .ok r => r :: send_message typ oracle rest

/-- The recipients of `send_message typ`: alive players matching the type
filter, in roster order. -/
def matchesSend (typ : String) (p : Player) : Bool :=
  p.state == "alive" && (p.type == typ || typ == "all")

/-- A two-player roster and an oracle that fails on the first recipient. -/
def rosterPair : List Player :=
  [⟨"a", "wolf", "alive"⟩, ⟨"b", "village", "alive"⟩]

def failFirstOracle : Oracle := fun p =>
  if p.name = "a" then .error "transport down"
  else .ok ⟨"response", p.name, "ok"⟩

end WolfGame

namespace WolfGame

/-- C4 counterexample: `broadcast` has no per-recipient error handling: with
both players alive and the send to "a" raising, the whole broadcast aborts
with that error instead of skipping "a" and returning "b"'s response. -/
theorem broadcast_propagates_failure :
    broadcast failFirstOracle rosterPair = .error "transport down" := rfl

/-- C4 (amended): for `send_message` fan-outs a recipient whose send raises is
skipped and iteration continues: the result is exactly the successful
responses of the alive, type-matching players in roster order.  `broadcast`,
in contrast, performs no error handling: it returns the response list only
when every alive recipient's send succeeds, and aborts with an error
otherwise. -/
theorem send_message_spec (typ : String) (oracle : Oracle) (players : List Player) :
    send_message typ oracle players
      = (players.filter (matchesSend typ)).filterMap (fun p => (oracle p).toOption)
    ∧ ((∃ rs, broadcast oracle players = .ok rs) ↔
        ∀ p ∈ players, p.state = "alive" → ∃ r, oracle p = .ok r) := by
  constructor
  · induction players with
    | nil => rfl
    | cons p rest ih =>
        by_cases hs : p.state = "alive"
        · by_cases ht : p.type = typ ∨ typ = "all"
          · have hm : matchesSend typ p = true := by
              simp [matchesSend, hs]
              rcases ht with h | h <;> simp [h]
            have hna : ¬ p.state ≠ "alive" := by simp [hs]
            have hnt : ¬ (p.type ≠ typ ∧ typ ≠ "all") := by tauto
            cases ho : oracle p with
            | error e =>
                simp [send_message, hna, hnt, ho, List.filter_cons, hm, ih, Except.toOption]
            | ok r =>
                simp [send_message, hna, hnt, ho, List.filter_cons, hm, ih, Except.toOption]
          · have hm : matchesSend typ p = false := by
              simp [matchesSend, hs]
              constructor
              · intro h; exact absurd (Or.inl h) ht
              · intro h; exact absurd (Or.inr h) ht
            have hnt : p.type ≠ typ ∧ typ ≠ "all" := by tauto
            simp [send_message, hs, hnt, List.filter_cons, hm, ih]
        · have hm : matchesSend typ p = false := by simp [matchesSend, hs]
          simp [send_message, hs, List.filter_cons, hm, ih]
  · induction players with
    | nil => simp [broadcast]
    | cons p rest ih =>
        by_cases hs : p.state = "alive"
        · have hna : ¬ p.state ≠ "alive" := by simp [hs]
          cases ho : oracle p with
          | error e =>
              simp only [broadcast, if_neg hna, ho]
              constructor
              · rintro ⟨rs, h⟩; cases h
              · intro h
                obtain ⟨r, hr⟩ := h p (List.mem_cons_self p rest) hs
                rw [ho] at hr; cases hr
          | ok r =>
              simp only [broadcast, if_neg hna, ho]
              cases hb : broadcast oracle rest with
              | error e =>
                  rw [hb] at ih
                  constructor
                  · rintro ⟨rs, h⟩; cases h
                  · intro h
                    have : ∀ q ∈ rest, q.state = "alive" → ∃ r', oracle q = .ok r' :=
                      fun q hq => h q (List.mem_cons_of_mem p hq)
                    obtain ⟨rs, hrs⟩ := ih.2 this
                    cases hrs
              | ok rs =>
                  rw [hb] at ih
                  constructor
                  · intro _
                    intro q hq hqs
                    rcases List.mem_cons.1 hq with rfl | hq'
                    · exact ⟨r, ho⟩
                    · exact ih.1 ⟨rs, rfl⟩ q hq' hqs
                  · intro _; exact ⟨r :: rs, rfl⟩
        · have hna : p.state ≠ "alive" := hs
          simp only [broadcast, if_pos hna]
          constructor
          · intro h q hq hqs
            rcases List.mem_cons.1 hq with rfl | hq'
            · exact absurd hqs hs
            · exact ih.1 h q hq' hqs
          · intro h
            exact ih.2 (fun q hq => h q (List.mem_cons_of_mem p hq))

end WolfGame

namespace WolfGame

/-- Result of the night witch step (main.py:307-328). -/
structure WitchOut where
  requestedHeal : Bool
  requestedPoison : Bool
  tonight_saving : Bool
  healing : Bool
  poison : Bool
  dead_player : String
  poison_player : String
deriving DecidableEq, Repr

/-- `players[-1].state == "alive"` — the gate used by both the witch step and
the seer step of the night phase (the last roster slot is the witch). -/
def lastAlive (players : List Player) : Bool :=
  match players.getLast? with
  | some p => p.state == "alive"
  | none => false

/-- `responses and responses[0].content.lower() == "yes"` (main.py:315):
whether the witch heals tonight. -/
def witchSaving (healResp : List TextMessage) : Bool :=
  match healResp with
  | r :: _ => lowS r.content == "yes"
  | [] => false

/-- The night witch step of `main` (main.py:307-328).  The whole step runs
only under `game.healing and game.players[-1].state == "alive"`; inside it the
heal request is issued first, a "yes" answer (case-insensitive) consumes the
heal budget and clears the pending kill, and the poison request is issued only
under `not tonight_saving and game.poison`; a first response whose lowercased
content is not "no" nominates `content.strip()` as poison target, consuming
the poison budget only when that strip is non-empty.  `healResp`/`poisonResp`
are the response lists of the two `send_message("witch", ...)` calls;
`requestedHeal`/`requestedPoison` record which requests were issued. -/
def witchStep (healing poison : Bool) (players : List Player)
    (healResp poisonResp : List TextMessage) (dead_player : String) : WitchOut :=
  if healing && lastAlive players then
    if (!witchSaving healResp) && poison then
      match poisonResp with
      | r :: _ =>
          if lowS r.content ≠ "no" then
            { requestedHeal := true, requestedPoison := true,
              tonight_saving := witchSaving healResp,
              healing := if witchSaving healResp then false else healing,
              poison := if trimS r.content ≠ "" then false else poison,
              dead_player := if witchSaving healResp then "" else dead_player,
              poison_player := trimS r.content }
          else
            { requestedHeal := true, requestedPoison := true,
              tonight_saving := witchSaving healResp,
              healing := if witchSaving healResp then false else healing,
              poison := poison,
              dead_player := if witchSaving healResp then "" else dead_player,
              poison_player := "" }
      | [] =>
          { requestedHeal := true, requestedPoison := true,
            tonight_saving := witchSaving healResp,
            healing := if witchSaving healResp then false else healing,
            poison := poison,
            dead_player := if witchSaving healResp then "" else dead_player,
            poison_player := "" }
    else
      { requestedHeal := true, requestedPoison := false,
        tonight_saving := witchSaving healResp,
        healing := if witchSaving healResp then false else healing,
        poison := poison,
        dead_player := if witchSaving healResp then "" else dead_player,
        poison_player := "" }
  else
    { requestedHeal := false, requestedPoison := false, tonight_saving := false,
      healing := healing, poison := poison,
      dead_player := dead_player, poison_player := "" }

/-- A roster whose last slot (the witch) is alive. -/
def rosterWitchAlive : List Player :=
  [⟨"a", "wolf", "alive"⟩, ⟨"b", "wolf", "alive"⟩,
   ⟨"c", "village", "alive"⟩, ⟨"d", "village", "alive"⟩,
   ⟨"e", "seer", "alive"⟩, ⟨"f", "witch", "alive"⟩]

end WolfGame

namespace WolfGame

/-- C6 counterexample, two concrete night states refuting the claim as
stated.  (i) Heal budget already spent in an earlier night (`healing =
false`), poison budget available, witch alive, heal not used tonight: the
claim's iff demands a poison request, but the whole witch step is skipped and
none is issued.  (ii) With both budgets available, a poison response " "
(non-"no") strips to the empty string: the claim says a non-"no" response
consumes the poison budget, but the budget survives and no candidate is
added. -/
theorem witchStep_claim_fails :
    ((witchStep false true rosterWitchAlive [] [] "x").tonight_saving = false
      ∧ (witchStep false true rosterWitchAlive [] [] "x").requestedPoison = false)
    ∧ ((witchStep true true rosterWitchAlive [⟨"response", "f", "maybe"⟩]
          [⟨"response", "f", " "⟩] "x").requestedPoison = true
      ∧ lowS " " ≠ "no"
      ∧ (witchStep true true rosterWitchAlive [⟨"response", "f", "maybe"⟩]
          [⟨"response", "f", " "⟩] "x").poison = true
      ∧ (witchStep true true rosterWitchAlive [⟨"response", "f", "maybe"⟩]
          [⟨"response", "f", " "⟩] "x").poison_player = "") := by decide

/-- C6 (amended): the poison request is issued iff the heal budget is still
available, the witch (last roster slot) is alive, the heal was not just used
tonight, and the poison budget is available; when it is issued, a first
response whose lowercased content is not "no" and whose stripped content is
non-empty consumes the poison budget and installs the stripped content as a
second, independent elimination candidate, leaving the pending wolf-kill
candidate unchanged; and in any night where the heal is used no poison
request is issued. -/
theorem witchStep_spec (healing poison : Bool) (players : List Player)
    (healResp poisonResp : List TextMessage) (dead_player : String) :
    ((witchStep healing poison players healResp poisonResp dead_player).requestedPoison = true ↔
      (healing = true ∧ lastAlive players = true
        ∧ (witchStep healing poison players healResp poisonResp dead_player).tonight_saving = false
        ∧ poison = true))
    ∧ ((witchStep healing poison players healResp poisonResp dead_player).tonight_saving = true →
        (witchStep healing poison players healResp poisonResp dead_player).requestedPoison = false)
    ∧ (∀ r rs, poisonResp = r :: rs →
        (witchStep healing poison players healResp poisonResp dead_player).requestedPoison = true →
        lowS r.content ≠ "no" → trimS r.content ≠ "" →
        (witchStep healing poison players healResp poisonResp dead_player).poison = false
        ∧ (witchStep healing poison players healResp poisonResp dead_player).poison_player
            = trimS r.content
        ∧ (witchStep healing poison players healResp poisonResp dead_player).dead_player
            = dead_player) := by
  by_cases hg : (healing && lastAlive players) = true
  · have hha := hg
    simp only [Bool.and_eq_true] at hha
    obtain ⟨hh, ha⟩ := hha
    by_cases hs : witchSaving healResp = true
    · have hguard : ((!witchSaving healResp) && poison) = false := by simp [hs]
      have hout : witchStep healing poison players healResp poisonResp dead_player
          = { requestedHeal := true, requestedPoison := false,
              tonight_saving := witchSaving healResp,
              healing := if witchSaving healResp then false else healing,
              poison := poison,
              dead_player := if witchSaving healResp then "" else dead_player,
              poison_player := "" } := by
        unfold witchStep
        rw [if_pos hg, if_neg (by simp [hguard])]
      rw [hout]
      refine ⟨by simp [hs], fun _ => rfl, fun r rs _ hreq => absurd hreq (by simp)⟩
    · rw [Bool.not_eq_true] at hs
      by_cases hp : poison = true
      · have hguard : ((!witchSaving healResp) && poison) = true := by simp [hs, hp]
        cases poisonResp with
        | nil =>
            have hout : witchStep healing poison players healResp [] dead_player
                = { requestedHeal := true, requestedPoison := true,
                    tonight_saving := witchSaving healResp,
                    healing := if witchSaving healResp then false else healing,
                    poison := poison,
                    dead_player := if witchSaving healResp then "" else dead_player,
                    poison_player := "" } := by
              unfold witchStep
              rw [if_pos hg, if_pos hguard]
            rw [hout]
            refine ⟨by simp [hs, hh, ha, hp], ?_, ?_⟩
            · intro hcon
              exact absurd hcon (by simp [hs])
            · intro r rs hcons
              cases hcons
        | cons r rs =>
            by_cases hno : lowS r.content = "no"
            · have hout : witchStep healing poison players healResp (r :: rs) dead_player
                  = { requestedHeal := true, requestedPoison := true,
                      tonight_saving := witchSaving healResp,
                      healing := if witchSaving healResp then false else healing,
                      poison := poison,
                      dead_player := if witchSaving healResp then "" else dead_player,
                      poison_player := "" } := by
                unfold witchStep
                rw [if_pos hg, if_pos hguard]
                exact if_neg (not_not_intro hno)
              rw [hout]
              refine ⟨by simp [hs, hh, ha, hp], ?_, ?_⟩
              · intro hcon
                exact absurd hcon (by simp [hs])
              · intro r' rs' hcons
                injection hcons with h1 h2
                subst h1
                exact fun _ hno' _ => absurd hno hno'
            · have hout : witchStep healing poison players healResp (r :: rs) dead_player
                  = { requestedHeal := true, requestedPoison := true,
                      tonight_saving := witchSaving healResp,
                      healing := if witchSaving healResp then false else healing,
                      poison := if trimS r.content ≠ "" then false else poison,
                      dead_player := if witchSaving healResp then "" else dead_player,
                      poison_player := trimS r.content } := by
                unfold witchStep
                rw [if_pos hg, if_pos hguard]
                exact if_pos hno
              rw [hout]
              refine ⟨by simp [hs, hh, ha, hp], ?_, ?_⟩
              · intro hcon
                exact absurd hcon (by simp [hs])
              · intro r' rs' hcons
                injection hcons with h1 h2
                subst h1
                intro _ _ ht
                exact ⟨by simp [ht], rfl, by simp [hs]⟩
      · rw [Bool.not_eq_true] at hp
        have hguard : ((!witchSaving healResp) && poison) = false := by simp [hp]
        have hout : witchStep healing poison players healResp poisonResp dead_player
            = { requestedHeal := true, requestedPoison := false,
                tonight_saving := witchSaving healResp,
                healing := if witchSaving healResp then false else healing,
                poison := poison,
                dead_player := if witchSaving healResp then "" else dead_player,
                poison_player := "" } := by
          unfold witchStep
          rw [if_pos hg, if_neg (by simp [hguard])]
        rw [hout]
        refine ⟨by simp [hp], fun _ => rfl, fun r rs _ hreq => absurd hreq (by simp)⟩
  · have hout : witchStep healing poison players healResp poisonResp dead_player
        = { requestedHeal := false, requestedPoison := false, tonight_saving := false,
            healing := healing, poison := poison,
            dead_player := dead_player, poison_player := "" } := by
      unfold witchStep
      rw [if_neg (by simp [hg])]
    rw [hout]
    refine ⟨?_, ?_, ?_⟩
    · constructor
      · intro hcon
        exact absurd hcon (by simp)
      · rintro ⟨h1, h2, _, _⟩
        exact absurd (by simp [h1, h2] : (healing && lastAlive players) = true) hg
    · intro hcon
      exact absurd hcon (by simp)
    · intro r rs _ hreq
      exact absurd hreq (by simp)

/-- C6 witness: `witchStep_spec` at a concrete night state — both budgets
available, witch alive, no heal, poison response "c": the poison budget is
consumed, "c" becomes the second candidate, and the wolf kill "a" stands. -/
theorem witchStep_spec_witness :
    (witchStep true true rosterWitchAlive [⟨"response", "f", "no"⟩]
        [⟨"response", "f", "c"⟩] "a").poison = false
    ∧ (witchStep true true rosterWitchAlive [⟨"response", "f", "no"⟩]
        [⟨"response", "f", "c"⟩] "a").poison_player = trimS "c"
    ∧ (witchStep true true rosterWitchAlive [⟨"response", "f", "no"⟩]
        [⟨"response", "f", "c"⟩] "a").dead_player = "a" :=
  (witchStep_spec true true rosterWitchAlive [⟨"response", "f", "no"⟩]
      [⟨"response", "f", "c"⟩] "a").2.2 ⟨"response", "f", "c"⟩ [] rfl (by decide)
      (by decide) (by decide)

end WolfGame

namespace WolfGame

/-- Whether the roster's seer slot holds an alive seer. -/
def seerAlive (players : List Player) : Bool :=
  players.any (fun p => p.type == "seer" && p.state == "alive")

/-- A roster in which the seer ("e", slot 4) is alive but the witch
("f", slot 5 = `players[-1]`) is dead. -/
def rosterWitchDeadSeerAlive : List Player :=
  [⟨"a", "wolf", "alive"⟩, ⟨"b", "wolf", "alive"⟩,
   ⟨"c", "village", "alive"⟩, ⟨"d", "village", "alive"⟩,
   ⟨"e", "seer", "alive"⟩, ⟨"f", "witch", "dead"⟩]

end WolfGame

namespace WolfGame

/-- C8: the seer step of `main` (main.py:331) is guarded by
`game.players[-1].state == "alive"`, i.e. by the WITCH slot (the last of the
six slots), not by the seer.  On a roster whose witch is dead but whose seer
is alive the gate evaluates to false and the seer investigation is skipped,
though the claim (and the game's intent) requires it to run exactly when the
seer is alive. -/
theorem seer_gate_checks_witch :
    lastAlive rosterWitchDeadSeerAlive = false
    ∧ seerAlive rosterWitchDeadSeerAlive = true
    ∧ (rosterWitchDeadSeerAlive.getD 4 ⟨"", "", ""⟩).type = "seer"
    ∧ (rosterWitchDeadSeerAlive.getD 4 ⟨"", "", ""⟩).state = "alive"
    ∧ (rosterWitchDeadSeerAlive.getD 5 ⟨"", "", ""⟩).type = "witch"
    ∧ (rosterWitchDeadSeerAlive.getD 5 ⟨"", "", ""⟩).state = "dead" := by decide

end WolfGame

namespace WolfGame

/-- `content.strip().lower()` — the normalized target of one vote. -/
def normV (c : String) : String := lowS (trimS c)

/-- Insertion-ordered dictionary increment, mirroring Python
`vote_count[k] = vote_count.get(k, 0) + 1`: an existing key is bumped in
place, a new key is appended at the end. -/
def bump (m : List (String × Nat)) (k : String) : List (String × Nat) :=
  match m with
  | [] => [(k, 1)]
  | (a, v) :: rest => if a = k then (a, v + 1) :: rest else (a, v) :: bump rest k

/-- One loop iteration of `collect_votes` (main.py:152-157): skip empty
content, else count the stripped, lowercased content. -/
def tallyStep (m : List (String × Nat)) (v : TextMessage) : List (String × Nat) :=
  if v.content = "" then m else bump m (normV v.content)

/-- The `vote_count` dictionary built by `collect_votes`. -/
def tally (votes : List TextMessage) : List (String × Nat) :=
  votes.foldl tallyStep []

/-- `max(vote_count.values())` (0 for an empty dictionary). -/
def maxVotes (m : List (String × Nat)) : Nat :=
  m.foldl (fun a p => Nat.max a p.2) 0

/-- `most_voted`: the names whose count attains the maximum, in dictionary
(first-occurrence) order. -/
def mostVoted (m : List (String × Nat)) : List String :=
  (m.filter (fun p => p.2 == maxVotes m)).map Prod.fst

/-- `WolfGame.collect_votes` (main.py:148-167).  `rand n` models the state of
the random source when asked to draw from a tied list of length `n`
(`random.choice(seq)` = `seq[randbelow(len(seq))]`); the index is reduced
mod the length so the model is total. -/
def collect_votes (rand : Nat → Nat) (votes : List TextMessage) : String :=
  let m := tally votes
  if m = [] then ""
  else
    let mv := mostVoted m
    if mv = [] then "" else mv.getD (rand mv.length % mv.length) ""

/-- Dictionary lookup on the association list. -/
def lookupOpt (m : List (String × Nat)) (k : String) : Option Nat :=
  match m with
  | [] => none
  | (a, v) :: rest => if a = k then some v else lookupOpt rest k

/-- Number of votes whose non-empty content normalizes to `k`. -/
def votesFor (k : String) (votes : List TextMessage) : Nat :=
  votes.countP (fun v => !(v.content == "") && (normV v.content == k))

/-- Adding `n` occurrences to an optional existing count. -/
def addCnt (o : Option Nat) (n : Nat) : Option Nat :=
  match o with
  | some c => some (c + n)
  | none => if n = 0 then none else some n

lemma bump_ne_nil (m : List (String × Nat)) (k : String) : bump m k ≠ [] := by
  cases m with
  | nil => simp [bump]
  | cons p rest =>
      obtain ⟨a, v⟩ := p
      by_cases h : a = k <;> simp [bump, h]

lemma bump_lookup (m : List (String × Nat)) (k k1 : String) :
    lookupOpt (bump m k) k1
      = if k1 = k then some ((lookupOpt m k).getD 0 + 1) else lookupOpt m k1 := by
  induction m with
  | nil =>
      by_cases h : k1 = k
      · simp [bump, lookupOpt, h]
      · simp [bump, lookupOpt, h, Ne.symm h]
  | cons p rest ih =>
      obtain ⟨a, v⟩ := p
      by_cases hak : a = k
      · subst hak
        by_cases h1 : k1 = a
        · subst h1
          simp [bump, lookupOpt]
        · simp [bump, lookupOpt, h1, Ne.symm h1]
      · by_cases h1 : a = k1
        · subst h1
          simp [bump, lookupOpt, hak, Ne.symm hak]
        · simp [bump, lookupOpt, hak, h1, ih]

lemma bump_keys (m : List (String × Nat)) (k : String) :
    (bump m k).map Prod.fst
      = if k ∈ m.map Prod.fst then m.map Prod.fst else m.map Prod.fst ++ [k] := by
  induction m with
  | nil => simp [bump]
  | cons p rest ih =>
      obtain ⟨a, v⟩ := p
      by_cases hak : a = k
      · subst hak
        simp [bump]
      · by_cases hmem : k ∈ rest.map Prod.fst
        · simp [bump, hak, hmem, ih, Ne.symm hak]
        · simp [bump, hak, hmem, ih, Ne.symm hak]

lemma bump_nodup (m : List (String × Nat)) (k : String)
    (h : (m.map Prod.fst).Nodup) : ((bump m k).map Prod.fst).Nodup := by
  rw [bump_keys]
  by_cases hmem : k ∈ m.map Prod.fst
  · simpa [hmem] using h
  · simp only [hmem, if_false]
    exact List.Nodup.append h (List.nodup_singleton k) (by simpa using hmem)

lemma tally_fold_lookup (votes : List TextMessage) :
    ∀ (m : List (String × Nat)) (k : String),
      lookupOpt (votes.foldl tallyStep m) k = addCnt (lookupOpt m k) (votesFor k votes) := by
  induction votes with
  | nil =>
      intro m k
      simp [votesFor, addCnt]
      cases lookupOpt m k <;> simp [addCnt]
  | cons v rest ih =>
      intro m k
      rw [List.foldl_cons]
      rw [ih (tallyStep m v) k]
      by_cases hc : v.content = ""
      · have hstep : tallyStep m v = m := by simp [tallyStep, hc]
        have hcount : votesFor k (v :: rest) = votesFor k rest := by
          simp [votesFor, List.countP_cons, hc]
        rw [hstep, hcount]
      · by_cases hk : normV v.content = k
        · have hstep : tallyStep m v = bump m k := by simp [tallyStep, hc, hk]
          have hcount : votesFor k (v :: rest) = votesFor k rest + 1 := by
            simp [votesFor, List.countP_cons, hc, hk]
          rw [hstep, hcount, bump_lookup]
          simp only [if_pos rfl]
          cases ho : lookupOpt m k <;> simp [addCnt, ho] <;> omega
        · have hstep : tallyStep m v = bump m (normV v.content) := by
            simp [tallyStep, hc]
          have hcount : votesFor k (v :: rest) = votesFor k rest := by
            simp [votesFor, List.countP_cons, hc, hk]
          rw [hstep, hcount, bump_lookup, if_neg (fun hh : k = normV v.content => hk hh.symm)]

lemma tally_lookup (votes : List TextMessage) (k : String) :
    lookupOpt (tally votes) k
      = if votesFor k votes = 0 then none else some (votesFor k votes) := by
  rw [tally, tally_fold_lookup votes [] k]
  simp [lookupOpt, addCnt]

lemma tally_fold_nodup (votes : List TextMessage) :
    ∀ m : List (String × Nat), (m.map Prod.fst).Nodup →
      ((votes.foldl tallyStep m).map Prod.fst).Nodup := by
  induction votes with
  | nil => intro m h; simpa using h
  | cons v rest ih =>
      intro m h
      rw [List.foldl_cons]
      refine ih (tallyStep m v) ?_
      by_cases hc : v.content = ""
      · simpa [tallyStep, hc] using h
      · simpa [tallyStep, hc] using bump_nodup m (normV v.content) h

lemma tally_nodup (votes : List TextMessage) : ((tally votes).map Prod.fst).Nodup :=
  tally_fold_nodup votes [] (by simp)

lemma tally_fold_eq_nil (votes : List TextMessage) :
    ∀ m : List (String × Nat),
      (votes.foldl tallyStep m = [] ↔ (m = [] ∧ ∀ v ∈ votes, v.content = "")) := by
  induction votes with
  | nil => intro m; simp
  | cons v rest ih =>
      intro m
      rw [List.foldl_cons, ih (tallyStep m v)]
      by_cases hc : v.content = ""
      · simp [tallyStep, hc]
      · have hb : tallyStep m v ≠ [] := by
          simp only [tallyStep, if_neg hc]
          exact bump_ne_nil m (normV v.content)
        simp [hb, hc]

lemma tally_eq_nil (votes : List TextMessage) :
    tally votes = [] ↔ ∀ v ∈ votes, v.content = "" := by
  rw [tally, tally_fold_eq_nil votes []]
  simp

end WolfGame

namespace WolfGame

lemma foldmax_ge_init (m : List (String × Nat)) :
    ∀ a : Nat, a ≤ m.foldl (fun a p => Nat.max a p.2) a := by
  induction m with
  | nil => intro a; simp
  | cons q rest ih =>
      intro a
      rw [List.foldl_cons]
      exact le_trans (Nat.le_max_left a q.2) (ih (Nat.max a q.2))

lemma foldmax_ge_mem (m : List (String × Nat)) :
    ∀ (a : Nat) (p : String × Nat), p ∈ m → p.2 ≤ m.foldl (fun a p => Nat.max a p.2) a := by
  induction m with
  | nil => intro a p hp; cases hp
  | cons q rest ih =>
      intro a p hp
      rw [List.foldl_cons]
      rcases List.mem_cons.1 hp with rfl | hp'
      · exact le_trans (Nat.le_max_right a p.2) (foldmax_ge_init rest (Nat.max a p.2))
      · exact ih (Nat.max a q.2) p hp'

lemma foldmax_attained (m : List (String × Nat)) :
    ∀ a : Nat, m.foldl (fun a p => Nat.max a p.2) a = a
      ∨ ∃ p ∈ m, m.foldl (fun a p => Nat.max a p.2) a = p.2 := by
  induction m with
  | nil => intro a; exact Or.inl rfl
  | cons q rest ih =>
      intro a
      rw [List.foldl_cons]
      rcases ih (Nat.max a q.2) with h | ⟨p, hp, hfp⟩
      · rcases Nat.le_total a q.2 with hle | hle
        · right
          exact ⟨q, List.mem_cons_self q rest, by rw [h]; exact Nat.max_eq_right hle⟩
        · left
          rw [h]
          exact Nat.max_eq_left hle
      · right
        exact ⟨p, List.mem_cons_of_mem q hp, hfp⟩

lemma maxVotes_mem_le (m : List (String × Nat)) (p : String × Nat) (hp : p ∈ m) :
    p.2 ≤ maxVotes m :=
  foldmax_ge_mem m 0 p hp

lemma maxVotes_perm (m m1 : List (String × Nat)) (h : List.Perm m m1) :
    maxVotes m = maxVotes m1 := by
  refine Nat.le_antisymm ?_ ?_
  · rcases foldmax_attained m 0 with h0 | ⟨p, hp, hfp⟩
    · rw [maxVotes, h0]; exact Nat.zero_le _
    · rw [maxVotes, hfp]
      exact maxVotes_mem_le m1 p (h.mem_iff.1 hp)
  · rcases foldmax_attained m1 0 with h0 | ⟨p, hp, hfp⟩
    · rw [maxVotes, h0]; exact Nat.zero_le _
    · rw [maxVotes, hfp]
      exact maxVotes_mem_le m p (h.mem_iff.2 hp)

lemma mostVoted_ne_nil (m : List (String × Nat)) (hm : m ≠ []) : mostVoted m ≠ [] := by
  obtain ⟨q, rest, rfl⟩ := List.exists_cons_of_ne_nil hm
  rcases foldmax_attained (q :: rest) 0 with h0 | ⟨p, hp, hfp⟩
  · have hq : q.2 ≤ maxVotes (q :: rest) := maxVotes_mem_le _ q (List.mem_cons_self q rest)
    have hq0 : q.2 = maxVotes (q :: rest) := by
      rw [maxVotes, h0] at hq ⊢
      omega
    have : q ∈ (q :: rest).filter (fun p => p.2 == maxVotes (q :: rest)) :=
      List.mem_filter.2 ⟨List.mem_cons_self q rest, by simpa using hq0⟩
    intro hcon
    rw [mostVoted] at hcon
    rw [List.map_eq_nil_iff] at hcon
    rw [hcon] at this
    cases this
  · have : p ∈ (q :: rest).filter (fun p => p.2 == maxVotes (q :: rest)) :=
      List.mem_filter.2 ⟨hp, by simp [maxVotes, hfp.symm]⟩
    intro hcon
    rw [mostVoted] at hcon
    rw [List.map_eq_nil_iff] at hcon
    rw [hcon] at this
    cases this

lemma collect_votes_eq_nil (rand : Nat → Nat) (votes : List TextMessage)
    (h : tally votes = []) : collect_votes rand votes = "" := by
  unfold collect_votes
  rw [if_pos h]

lemma collect_votes_mem (rand : Nat → Nat) (votes : List TextMessage)
    (h : tally votes ≠ []) :
    collect_votes rand votes ∈ mostVoted (tally votes) := by
  unfold collect_votes
  rw [if_neg h]
  have hmv : mostVoted (tally votes) ≠ [] := mostVoted_ne_nil (tally votes) h
  rw [if_neg hmv]
  have hlen : 0 < (mostVoted (tally votes)).length := List.length_pos.2 hmv
  have hidx : rand (mostVoted (tally votes)).length % (mostVoted (tally votes)).length
      < (mostVoted (tally votes)).length := Nat.mod_lt _ hlen
  rw [List.getD_eq_getElem _ _ hidx]
  exact List.getElem_mem hidx

end WolfGame

namespace WolfGame

/-- C5: `collect_votes` strips and lowercases each vote's content as the
nominated target, skips votes with empty content, groups the rest by
normalized target with occurrence counts (the lookup of `k` in the tally is
exactly the number of non-empty votes normalizing to `k`), returns "" when no
group remains, returns the unique maximizer when the set of targets attaining
the maximal count is a singleton, and in general returns a member of that
tied set drawn via the random source. -/
theorem collect_votes_spec (rand : Nat → Nat) (votes : List TextMessage) :
    ((∀ v ∈ votes, v.content = "") → collect_votes rand votes = "")
    ∧ (∀ k, lookupOpt (tally votes) k
        = (if votesFor k votes = 0 then none else some (votesFor k votes)))
    ∧ (∀ k, mostVoted (tally votes) = [k] → collect_votes rand votes = k)
    ∧ ((∃ v ∈ votes, v.content ≠ "") → collect_votes rand votes ∈ mostVoted (tally votes)) := by
  refine ⟨?_, tally_lookup votes, ?_, ?_⟩
  · intro h
    exact collect_votes_eq_nil rand votes ((tally_eq_nil votes).2 h)
  · intro k hk
    have ht : tally votes ≠ [] := by
      intro hcon
      rw [mostVoted, hcon] at hk
      cases hk
    have := collect_votes_mem rand votes ht
    rw [hk] at this
    simpa using this
  · rintro ⟨v, hv, hvc⟩
    refine collect_votes_mem rand votes ?_
    intro hcon
    exact hvc ((tally_eq_nil votes).1 hcon v hv)

/-- C5 witness: `collect_votes_spec` at a concrete poll — votes "b", " B ",
"c" tally to b:2, c:1, the tied set is the singleton ["b"], and the winner is
"b" for any random source. -/
theorem collect_votes_spec_witness :
    collect_votes (fun _ => 7) [⟨"day_vote", "u", "b"⟩, ⟨"day_vote", "v", " B "⟩,
      ⟨"day_vote", "w", "c"⟩] = "b" :=
  (collect_votes_spec (fun _ => 7) [⟨"day_vote", "u", "b"⟩, ⟨"day_vote", "v", " B "⟩,
      ⟨"day_vote", "w", "c"⟩]).2.2.1 "b" (by decide)

end WolfGame

namespace WolfGame

lemma lookup_mem_iff (k : String) (v : Nat) :
    ∀ m : List (String × Nat), (m.map Prod.fst).Nodup →
      ((k, v) ∈ m ↔ lookupOpt m k = some v) := by
  intro m
  induction m with
  | nil => intro _; simp [lookupOpt]
  | cons p rest ih =>
      intro hn
      obtain ⟨a, w⟩ := p
      rw [List.map_cons, List.nodup_cons] at hn
      obtain ⟨hna, hnr⟩ := hn
      by_cases hak : a = k
      · subst hak
        have hlook : lookupOpt ((a, w) :: rest) a = some w := by simp [lookupOpt]
        rw [hlook]
        constructor
        · intro hmem
          rcases List.mem_cons.1 hmem with heq | hmem1
          · injection heq with h1 h2
            rw [h2]
          · exact absurd (List.mem_map_of_mem Prod.fst hmem1) hna
        · intro hs
          injection hs with h
          rw [← h]
          exact List.mem_cons_self (a, w) rest
      · simp only [lookupOpt, if_neg hak]
        rw [← ih hnr]
        constructor
        · intro hmem
          rcases List.mem_cons.1 hmem with heq | hmem1
          · exact absurd (congrArg Prod.fst heq).symm hak
          · exact hmem1
        · intro hmem
          exact List.mem_cons_of_mem (a, w) hmem

end WolfGame

namespace WolfGame

lemma tally_perm (votes votes1 : List TextMessage) (h : List.Perm votes votes1) :
    List.Perm (tally votes) (tally votes1) := by
  have hn := tally_nodup votes
  have hn1 := tally_nodup votes1
  have hpair : (tally votes).Nodup := List.Nodup.of_map Prod.fst hn
  have hpair1 : (tally votes1).Nodup := List.Nodup.of_map Prod.fst hn1
  rw [List.perm_ext_iff_of_nodup hpair hpair1]
  intro a
  obtain ⟨k, v⟩ := a
  rw [lookup_mem_iff k v _ hn, lookup_mem_iff k v _ hn1, tally_lookup, tally_lookup]
  have hc : votesFor k votes = votesFor k votes1 := List.Perm.countP_eq _ h
  rw [hc]

lemma mostVoted_perm (m m1 : List (String × Nat)) (h : List.Perm m m1) :
    List.Perm (mostVoted m) (mostVoted m1) := by
  rw [mostVoted, mostVoted, maxVotes_perm m m1 h]
  exact List.Perm.map Prod.fst (List.Perm.filter _ h)

end WolfGame

namespace WolfGame

/-- C10 counterexample: with the random source in a fixed state (index 0 on a
two-way draw), the two-vote poll {"a", "b"} is a tie, and permuting the
arrival order changes the winner from "a" to "b", because the tied list is in
first-occurrence order and `random.choice` indexes into it. -/
theorem collect_votes_order_dependent :
    List.Perm [(⟨"day_vote", "u", "a"⟩ : TextMessage), ⟨"day_vote", "v", "b"⟩]
      [⟨"day_vote", "v", "b"⟩, ⟨"day_vote", "u", "a"⟩]
    ∧ collect_votes (fun _ => 0) [⟨"day_vote", "u", "a"⟩, ⟨"day_vote", "v", "b"⟩] = "a"
    ∧ collect_votes (fun _ => 0) [⟨"day_vote", "v", "b"⟩, ⟨"day_vote", "u", "a"⟩] = "b"
    ∧ ("a" : String) ≠ "b" :=
  ⟨List.Perm.swap _ _ _, by decide, by decide, by decide⟩

/-- C10 (amended): the winner of `collect_votes` is insensitive to the
arrival order of the votes whenever a unique target attains the maximum
count: for every permutation of the input votes and every state of the random
source, the result is that unique maximizer.  On a tie, however, the drawn
winner depends on the first-occurrence order of the tied targets (see the
counterexample), so order-insensitivity holds only up to the tied set. -/
theorem collect_votes_perm_unique (votes votes1 : List TextMessage)
    (rand rand1 : Nat → Nat) (k : String)
    (hperm : List.Perm votes votes1) (huniq : mostVoted (tally votes) = [k]) :
    collect_votes rand votes = k ∧ collect_votes rand1 votes1 = k := by
  have ht : tally votes ≠ [] := by
    intro hcon
    rw [hcon] at huniq
    simp [mostVoted] at huniq
  have hperm2 : List.Perm (mostVoted (tally votes)) (mostVoted (tally votes1)) :=
    mostVoted_perm _ _ (tally_perm _ _ hperm)
  have huniq1 : mostVoted (tally votes1) = [k] := by
    have hp := hperm2.symm
    rw [huniq] at hp
    exact List.perm_singleton.1 hp
  have ht1 : tally votes1 ≠ [] := by
    intro hcon
    rw [hcon] at huniq1
    simp [mostVoted] at huniq1
  constructor
  · have hm := collect_votes_mem rand votes ht
    rw [huniq] at hm
    simpa using hm
  · have hm := collect_votes_mem rand1 votes1 ht1
    rw [huniq1] at hm
    simpa using hm

/-- C10 witness: `collect_votes_perm_unique` on the poll {"a", "a", "b"} and
a permutation of it, with two different random-source states: both runs
return the unique maximizer "a". -/
theorem collect_votes_perm_unique_witness :
    collect_votes (fun _ => 0) [(⟨"day_vote", "u", "a"⟩ : TextMessage),
      ⟨"day_vote", "v", "a"⟩, ⟨"day_vote", "w", "b"⟩] = "a"
    ∧ collect_votes (fun _ => 3) [(⟨"day_vote", "w", "b"⟩ : TextMessage),
      ⟨"day_vote", "v", "a"⟩, ⟨"day_vote", "u", "a"⟩] = "a" :=
  collect_votes_perm_unique
    [⟨"day_vote", "u", "a"⟩, ⟨"day_vote", "v", "a"⟩, ⟨"day_vote", "w", "b"⟩]
    [⟨"day_vote", "w", "b"⟩, ⟨"day_vote", "v", "a"⟩, ⟨"day_vote", "u", "a"⟩]
    (fun _ => 0) (fun _ => 3) "a" (by decide) (by decide)

end WolfGame

namespace WolfGame

/-- The resolution loop of `process_wolf_vote` (main.py:173-177): scan ALL
roster players in slot order; on the first whose lowercased name occurs as a
substring of the raw content, replace the content by the stored name. -/
def resolveContent (players : List Player) (c : String) : String :=
  match players with
  | [] => c
  | p :: rest => if pySubstr (lowS p.name) c then p.name else resolveContent rest c

/-- The voter filter of `process_wolf_vote` (main.py:180-184): some player
has exactly the vote's source as name and is an alive wolf. -/
def wolfVoter (players : List Player) (v : TextMessage) : Bool :=
  players.any (fun p => p.name == v.source && p.type == "wolf" && p.state == "alive")

/-- The voter filter of `process_day_vote` (main.py:191-195): some player has
exactly the vote's source as name and is alive. -/
def aliveVoter (players : List Player) (v : TextMessage) : Bool :=
  players.any (fun p => p.name == v.source && p.state == "alive")

/-- `WolfGame.process_wolf_vote` (main.py:169-185): resolve every vote's
content against the full roster, keep votes whose source is an alive wolf,
and tally. -/
def process_wolf_vote (rand : Nat → Nat) (players : List Player)
    (votes : List TextMessage) : String :=
  collect_votes rand
    ((votes.map (fun v => { v with content := resolveContent players v.content })).filter
      (wolfVoter players))

/-- `WolfGame.process_day_vote` (main.py:187-196): keep votes whose source is
an alive player and tally; there is NO resolution step here. -/
def process_day_vote (rand : Nat → Nat) (players : List Player)
    (votes : List TextMessage) : String :=
  collect_votes rand (votes.filter (aliveVoter players))

/-- Resolution as the claim words it: only ALIVE participants are checked
(the code checks every roster participant). -/
def resolveContentClaimed (players : List Player) (c : String) : String :=
  match players with
  | [] => c
  | p :: rest =>
      if p.state == "alive" && pySubstr (lowS p.name) c then p.name
      else resolveContentClaimed rest c

/-- The day pipeline as the claim describes it: resolve each vote (over alive
participants), filter to alive voters, tally. -/
def process_day_vote_claimed (rand : Nat → Nat) (players : List Player)
    (votes : List TextMessage) : String :=
  collect_votes rand
    ((votes.map (fun v => { v with content := resolveContentClaimed players v.content })).filter
      (aliveVoter players))

/-- The wolf pipeline as the claim describes it: resolution over alive
participants only. -/
def process_wolf_vote_claimed (rand : Nat → Nat) (players : List Player)
    (votes : List TextMessage) : String :=
  collect_votes rand
    ((votes.map (fun v => { v with content := resolveContentClaimed players v.content })).filter
      (wolfVoter players))

end WolfGame

namespace WolfGame

/-- C7 counterexample, two concrete polls refuting the claim as stated.
(i) The day pipeline applies NO resolution: with the single alive player
"Alice" and one vote of content "alice!" (which contains the case-folded
identity "alice"), the claim's pipeline resolves and elects "alice", but the
code elects the raw "alice!".  (ii) The wolf pipeline's resolution scans dead
participants too: with dead wolf "Bob", alive wolf "Wolfy" and one wolf vote
"kill bob", the code resolves to "Bob" and elects "bob", while resolution
restricted to alive participants would leave the content and elect
"kill bob". -/
theorem vote_resolution_claim_fails :
    process_day_vote (fun _ => 0) [⟨"Alice", "village", "alive"⟩]
      [⟨"day_vote", "Alice", "alice!"⟩] = "alice!"
    ∧ process_day_vote_claimed (fun _ => 0) [⟨"Alice", "village", "alive"⟩]
      [⟨"day_vote", "Alice", "alice!"⟩] = "alice"
    ∧ ("alice!" : String) ≠ "alice"
    ∧ process_wolf_vote (fun _ => 0)
      [⟨"Bob", "wolf", "dead"⟩, ⟨"Wolfy", "wolf", "alive"⟩]
      [⟨"night_kill", "Wolfy", "kill bob"⟩] = "bob"
    ∧ process_wolf_vote_claimed (fun _ => 0)
      [⟨"Bob", "wolf", "dead"⟩, ⟨"Wolfy", "wolf", "alive"⟩]
      [⟨"night_kill", "Wolfy", "kill bob"⟩] = "kill bob"
    ∧ ("bob" : String) ≠ "kill bob" := by decide

/-- C7 (amended): before tallying, the night wolf pipeline (and only it)
resolves each vote's free-text content against EVERY roster participant
(alive or dead) in roster order: the first participant whose case-folded
identity occurs as a substring of the raw content replaces the content with
its canonical stored name, and a vote matching no participant is unchanged;
the resolved votes are then filtered to alive-wolf sources and tallied.  The
day pipeline performs no resolution: it tallies the raw contents of the
alive-source votes. -/
theorem vote_resolution_spec (rand : Nat → Nat) (players : List Player)
    (votes : List TextMessage) :
    (∀ c, (∃ l1 p l2, players = l1 ++ p :: l2 ∧ pySubstr (lowS p.name) c = true
            ∧ (∀ q ∈ l1, pySubstr (lowS q.name) c = false)
            ∧ resolveContent players c = p.name)
       ∨ ((∀ p ∈ players, pySubstr (lowS p.name) c = false)
            ∧ resolveContent players c = c))
    ∧ process_wolf_vote rand players votes
        = collect_votes rand
            ((votes.map (fun v => { v with content := resolveContent players v.content })).filter
              (wolfVoter players))
    ∧ process_day_vote rand players votes
        = collect_votes rand (votes.filter (aliveVoter players)) := by
  refine ⟨?_, rfl, rfl⟩
  intro c
  induction players with
  | nil => exact Or.inr ⟨by simp, rfl⟩
  | cons p rest ih =>
      by_cases h : pySubstr (lowS p.name) c = true
      · exact Or.inl ⟨[], p, rest, rfl, h, by simp, by simp [resolveContent, h]⟩
      · rw [Bool.not_eq_true] at h
        rcases ih with ⟨l1, q, l2, heq, hq, hl1, hres⟩ | ⟨hall, hres⟩
        · refine Or.inl ⟨p :: l1, q, l2, by rw [heq, List.cons_append], hq, ?_, ?_⟩
          · intro r hr
            rcases List.mem_cons.1 hr with rfl | hr1
            · exact h
            · exact hl1 r hr1
          · simp [resolveContent, h, hres]
        · refine Or.inr ⟨?_, by simp [resolveContent, h, hres]⟩
          intro r hr
          rcases List.mem_cons.1 hr with rfl | hr1
          · exact h
          · exact hall r hr1

end WolfGame

namespace WolfGame

/-- The mutable game state of `WolfGame.__init__` (main.py:39-51): heal and
poison budgets, the six role slots, and the list of still-open slot indices. -/
structure GameState where
  healing : Bool
  poison : Bool
  players : List Player
  unregister : List Nat
deriving DecidableEq, Repr

/-- The six slots configured in `__init__`: 2 wolf, 2 village, 1 seer,
1 witch, all unnamed and unregistered. -/
def initPlayers : List Player :=
  [⟨"", "wolf", "unregistered"⟩, ⟨"", "wolf", "unregistered"⟩,
   ⟨"", "village", "unregistered"⟩, ⟨"", "village", "unregistered"⟩,
   ⟨"", "seer", "unregistered"⟩, ⟨"", "witch", "unregistered"⟩]

/-- The initial game state (`healing = poison = True`,
`unregister = [0,1,2,3,4,5]`). -/
def initState : GameState := ⟨true, true, initPlayers, [0, 1, 2, 3, 4, 5]⟩

/-- In-place update of one list position (no-op when out of range). -/
def updateAt : List Player → Nat → (Player → Player) → List Player
  | [], _, _ => []
  | x :: xs, 0, f => f x :: xs
  | x :: xs, n + 1, f => x :: updateAt xs n f

def defaultPlayer : Player := ⟨"", "", ""⟩

/-- `WolfGame.register` (main.py:53-81).  `pick` models the state of the
random source: `random.choice(self.unregister)` is the element at index
`pick % len` of the open-slot list.  Returns the assigned role (read back
from the updated slot, as the source does) or "" on failure. -/
def register (pick : Nat) (name : String) (s : GameState) : String × GameState :=
  if s.players.any (fun p => lowS p.name == lowS name) then ("", s)
  else if s.unregister.length = 0 then ("", s)
  else
    let choosed := s.unregister.getD (pick % s.unregister.length) 0
    let players1 := updateAt s.players choosed
      (fun p => { p with state := "alive", name := name })
    ((players1.getD choosed defaultPlayer).type,
     { s with players := players1, unregister := s.unregister.erase choosed })

/-- The state after a sequence of `register` calls starting from the fresh
game ((pick, name) per call). -/
def runRegisters (calls : List (Nat × String)) : GameState :=
  calls.foldl (fun s c => (register c.1 c.2 s).2) initState

/-- Number of alive players of role `t`. -/
def countAliveType (s : GameState) (t : String) : Nat :=
  s.players.countP (fun p => p.type == t && p.state == "alive")

/-- The reachability invariant of `register`: six slots; open-slot indices
are distinct, in range, unnamed and unregistered; filled slots carry a
non-empty name and are alive; filled names are pairwise distinct
case-insensitively; role types never change. -/
def Inv (s : GameState) : Prop :=
  s.players.length = 6
  ∧ s.unregister.Nodup
  ∧ (∀ i ∈ s.unregister, i < 6 ∧ (s.players.getD i defaultPlayer).name = ""
      ∧ (s.players.getD i defaultPlayer).state = "unregistered")
  ∧ (∀ i, i < 6 → i ∉ s.unregister →
      lowS (s.players.getD i defaultPlayer).name ≠ ""
      ∧ (s.players.getD i defaultPlayer).state = "alive")
  ∧ (∀ i, i < 6 → ∀ j, j < 6 → i ≠ j →
      lowS (s.players.getD i defaultPlayer).name ≠ "" →
      lowS (s.players.getD i defaultPlayer).name
        ≠ lowS (s.players.getD j defaultPlayer).name)
  ∧ s.players.map Player.type = initPlayers.map Player.type

lemma updateAt_length (l : List Player) (i : Nat) (f : Player → Player) :
    (updateAt l i f).length = l.length := by
  induction l generalizing i with
  | nil => rfl
  | cons x xs ih =>
      cases i with
      | zero => rfl
      | succ n => simp [updateAt, ih n]

lemma updateAt_getD_same (l : List Player) (i : Nat) (f : Player → Player)
    (h : i < l.length) :
    (updateAt l i f).getD i defaultPlayer = f (l.getD i defaultPlayer) := by
  induction l generalizing i with
  | nil => cases h
  | cons x xs ih =>
      cases i with
      | zero => rfl
      | succ n =>
          simp only [updateAt, List.getD_cons_succ]
          exact ih n (by simpa using h)

lemma updateAt_getD_other (l : List Player) (i j : Nat) (f : Player → Player)
    (h : i ≠ j) :
    (updateAt l i f).getD j defaultPlayer = l.getD j defaultPlayer := by
  induction l generalizing i j with
  | nil => cases i <;> rfl
  | cons x xs ih =>
      cases i with
      | zero =>
          cases j with
          | zero => exact absurd rfl h
          | succ m => rfl
      | succ n =>
          cases j with
          | zero => rfl
          | succ m =>
              simp only [updateAt, List.getD_cons_succ]
              exact ih n m (fun hc => h (congrArg Nat.succ hc))

lemma updateAt_map_type (l : List Player) (i : Nat) (name : String) :
    (updateAt l i (fun p => { p with state := "alive", name := name })).map Player.type
      = l.map Player.type := by
  induction l generalizing i with
  | nil => rfl
  | cons x xs ih =>
      cases i with
      | zero => rfl
      | succ n => simp [updateAt, ih n]

lemma getD_mem (l : List Player) (i : Nat) (h : i < l.length) :
    l.getD i defaultPlayer ∈ l := by
  rw [List.getD_eq_getElem l defaultPlayer h]
  exact List.getElem_mem h

end WolfGame

namespace WolfGame

lemma register_of_present (s : GameState) (pick : Nat) (name : String)
    (h : s.players.any (fun p => lowS p.name == lowS name) = true) :
    register pick name s = ("", s) := by
  unfold register
  rw [if_pos h]

lemma register_of_full (s : GameState) (pick : Nat) (name : String)
    (h : s.unregister = []) :
    register pick name s = ("", s) := by
  unfold register
  by_cases hany : s.players.any (fun p => lowS p.name == lowS name) = true
  · rw [if_pos hany]
  · rw [if_neg hany, if_pos (by rw [h]; rfl)]

lemma choosed_mem (s : GameState) (pick : Nat) (hne : s.unregister ≠ []) :
    s.unregister.getD (pick % s.unregister.length) 0 ∈ s.unregister := by
  have hlen : 0 < s.unregister.length := List.length_pos.2 hne
  have hidx : pick % s.unregister.length < s.unregister.length := Nat.mod_lt _ hlen
  rw [List.getD_eq_getElem _ _ hidx]
  exact List.getElem_mem hidx

lemma register_eq (s : GameState) (pick : Nat) (name : String)
    (hany : s.players.any (fun p => lowS p.name == lowS name) = false)
    (hne : s.unregister ≠ []) :
    register pick name s
      = (((updateAt s.players (s.unregister.getD (pick % s.unregister.length) 0)
            (fun p => { p with state := "alive", name := name })).getD
            (s.unregister.getD (pick % s.unregister.length) 0) defaultPlayer).type,
         { s with
            players := updateAt s.players (s.unregister.getD (pick % s.unregister.length) 0)
              (fun p => { p with state := "alive", name := name }),
            unregister :=
              s.unregister.erase (s.unregister.getD (pick % s.unregister.length) 0) }) := by
  unfold register
  rw [if_neg (by simp [hany]), if_neg (fun hc => hne (List.length_eq_zero.1 hc))]

lemma inv_register (s : GameState) (h : Inv s) (pick : Nat) (name : String) :
    Inv (register pick name s).2 := by
  obtain ⟨h1, h2, h3, h4, h5, h6⟩ := h
  by_cases hany : s.players.any (fun p => lowS p.name == lowS name) = true
  · rw [register_of_present s pick name hany]
    exact ⟨h1, h2, h3, h4, h5, h6⟩
  · rw [Bool.not_eq_true] at hany
    by_cases hnil : s.unregister = []
    · rw [register_of_full s pick name hnil]
      exact ⟨h1, h2, h3, h4, h5, h6⟩
    · rw [register_eq s pick name hany hnil]
      set c := s.unregister.getD (pick % s.unregister.length) 0 with hcdef
      have hcm : c ∈ s.unregister := choosed_mem s pick hnil
      obtain ⟨hc6, hcname, hcstate⟩ := h3 c hcm
      have hclen : c < s.players.length := by rw [h1]; exact hc6
      have hnoteq : ∀ p ∈ s.players, lowS p.name ≠ lowS name := by
        intro p hp hcon
        have habs : s.players.any (fun p => lowS p.name == lowS name) = true :=
          List.any_eq_true.2 ⟨p, hp, by simp [hcon]⟩
        rw [hany] at habs
        cases habs
      have hname_ne : lowS name ≠ "" := by
        intro hcon
        apply hnoteq (s.players.getD c defaultPlayer) (getD_mem _ _ hclen)
        rw [hcname, hcon]
        decide
      refine ⟨?_, ?_, ?_, ?_, ?_, ?_⟩
      · simpa [updateAt_length] using h1
      · exact List.Nodup.erase c h2
      · intro i hi
        obtain ⟨hic, hiu⟩ := (List.Nodup.mem_erase_iff h2).1 hi
        obtain ⟨hi6, hin, his⟩ := h3 i hiu
        rw [updateAt_getD_other s.players c i _ (Ne.symm hic)]
        exact ⟨hi6, hin, his⟩
      · intro i hi6 hi
        by_cases hic : i = c
        · rw [hic, updateAt_getD_same s.players c _ hclen]
          exact ⟨hname_ne, rfl⟩
        · have hiu : i ∉ s.unregister := by
            intro hcon
            exact hi ((List.Nodup.mem_erase_iff h2).2 ⟨hic, hcon⟩)
          rw [updateAt_getD_other s.players c i _ (fun hc => hic hc.symm)]
          exact h4 i hi6 hiu
      · intro i hi6 j hj6 hij hiname
        by_cases hic : i = c
        · have hjc : j ≠ c := fun hc => hij (hic.trans hc.symm)
          rw [updateAt_getD_other s.players c j _ (Ne.symm hjc)]
          rw [hic, updateAt_getD_same s.players c _ hclen]
          exact fun hcon =>
            hnoteq (s.players.getD j defaultPlayer)
              (getD_mem _ _ (by rw [h1]; exact hj6)) hcon.symm
        · by_cases hjc : j = c
          · rw [updateAt_getD_other s.players c i _ (fun hc => hic hc.symm)]
            rw [hjc, updateAt_getD_same s.players c _ hclen]
            exact fun hcon =>
              hnoteq (s.players.getD i defaultPlayer)
                (getD_mem _ _ (by rw [h1]; exact hi6)) hcon
          · rw [updateAt_getD_other s.players c i _ (fun hc => hic hc.symm)] at hiname ⊢
            rw [updateAt_getD_other s.players c j _ (fun hc => hjc hc.symm)]
            exact h5 i hi6 j hj6 hij hiname
      · rw [updateAt_map_type]
        exact h6

lemma inv_init : Inv initState := by
  refine ⟨rfl, by decide, by decide, by decide, by decide, rfl⟩

lemma inv_foldl (calls : List (Nat × String)) :
    ∀ s : GameState, Inv s →
      Inv (calls.foldl (fun s c => (register c.1 c.2 s).2) s) := by
  induction calls with
  | nil => intro s h; exact h
  | cons c rest ih =>
      intro s h
      rw [List.foldl_cons]
      exact ih _ (inv_register s h c.1 c.2)

lemma inv_run (calls : List (Nat × String)) : Inv (runRegisters calls) :=
  inv_foldl calls initState inv_init

lemma countAliveType_le (s : GameState)
    (h6 : s.players.map Player.type = initPlayers.map Player.type) (t : String) :
    countAliveType s t ≤ (initPlayers.map Player.type).countP (fun x => x == t) := by
  calc countAliveType s t ≤ s.players.countP (fun p => p.type == t) := by
        apply List.countP_mono_left
        intro p _ hcond
        simp only [Bool.and_eq_true] at hcond
        exact hcond.1
    _ = (s.players.map Player.type).countP (fun x => x == t) := by
        rw [List.countP_map]
        rfl
    _ = (initPlayers.map Player.type).countP (fun x => x == t) := by rw [h6]

end WolfGame

namespace WolfGame

/-- C2: from the fresh game, after any sequence of `register` calls:
`register` returns "" and leaves the state unchanged whenever some roster
record already carries the same lowercased name or no open slot remains
(in particular once all 6 slots are filled every further call returns "");
otherwise it picks one of the still-open slots via the random source, writes
the caller's name there, marks that slot alive, and returns that slot's role;
moreover no identity is ever assigned to two slots (filled names are pairwise
distinct case-insensitively) and the configured slot counts — 2 wolf,
2 village, 1 seer, 1 witch — are never exceeded by the alive players. -/
theorem register_spec (calls : List (Nat × String)) (pick : Nat) (name : String) :
    (((runRegisters calls).players.any (fun p => lowS p.name == lowS name) = true
        ∨ (runRegisters calls).unregister = [])
      → register pick name (runRegisters calls) = ("", runRegisters calls))
    ∧ ((runRegisters calls).players.any (fun p => lowS p.name == lowS name) = false
      → (runRegisters calls).unregister ≠ []
      → ∃ i ∈ (runRegisters calls).unregister,
          (register pick name (runRegisters calls)).1
            = ((runRegisters calls).players.getD i defaultPlayer).type
          ∧ (register pick name (runRegisters calls)).2.players
            = updateAt (runRegisters calls).players i
                (fun p => { p with state := "alive", name := name })
          ∧ (register pick name (runRegisters calls)).2.unregister
            = (runRegisters calls).unregister.erase i
          ∧ ((register pick name (runRegisters calls)).2.players.getD i
                defaultPlayer).state = "alive"
          ∧ ((register pick name (runRegisters calls)).2.players.getD i
                defaultPlayer).name = name)
    ∧ (∀ i, i < 6 → ∀ j, j < 6 → i ≠ j →
        lowS ((runRegisters calls).players.getD i defaultPlayer).name ≠ "" →
        lowS ((runRegisters calls).players.getD i defaultPlayer).name
          ≠ lowS ((runRegisters calls).players.getD j defaultPlayer).name)
    ∧ countAliveType (runRegisters calls) "wolf" ≤ 2
    ∧ countAliveType (runRegisters calls) "village" ≤ 2
    ∧ countAliveType (runRegisters calls) "seer" ≤ 1
    ∧ countAliveType (runRegisters calls) "witch" ≤ 1 := by
  obtain ⟨h1, h2, h3, h4, h5, h6⟩ := inv_run calls
  refine ⟨?_, ?_, h5, ?_, ?_, ?_, ?_⟩
  · rintro (h | h)
    · exact register_of_present _ pick name h
    · exact register_of_full _ pick name h
  · intro hany hne
    rw [register_eq _ pick name hany hne]
    have hcm : (runRegisters calls).unregister.getD
        (pick % (runRegisters calls).unregister.length) 0
        ∈ (runRegisters calls).unregister := choosed_mem _ pick hne
    have hc6 : (runRegisters calls).unregister.getD
        (pick % (runRegisters calls).unregister.length) 0 < 6 := (h3 _ hcm).1
    have hclen : (runRegisters calls).unregister.getD
        (pick % (runRegisters calls).unregister.length) 0
        < (runRegisters calls).players.length := by rw [h1]; exact hc6
    refine ⟨_, hcm, ?_, rfl, rfl, ?_, ?_⟩
    · rw [updateAt_getD_same _ _ _ hclen]
    · rw [updateAt_getD_same _ _ _ hclen]
    · rw [updateAt_getD_same _ _ _ hclen]
  · exact le_trans (countAliveType_le _ h6 "wolf") (by decide)
  · exact le_trans (countAliveType_le _ h6 "village") (by decide)
  · exact le_trans (countAliveType_le _ h6 "seer") (by decide)
  · exact le_trans (countAliveType_le _ h6 "witch") (by decide)

/-- C2 witness: after registering "alice", a register call for "ALICE" is
rejected (case-insensitive duplicate) with the state unchanged. -/
theorem register_spec_witness :
    register 3 "ALICE" (runRegisters [(0, "alice")]) = ("", runRegisters [(0, "alice")]) :=
  (register_spec [(0, "alice")] 3 "ALICE").1 (Or.inl (by decide))

end WolfGame
